import Mathlib

/-!
Verification of the container code-execution engine of the `code-interpreter`
repository.  The Python source under `app/` is shallowly embedded: pure
helpers (`_find_changed_files`, `_clean_output`, the MIME guessing expression,
the empty-output hint of the request layer, `DatabaseManager.add_file`) become
Lean functions, while the effectful `DockerExecutor.execute` becomes a pure
function over an explicit environment (`ExecEnv`) describing the outcome of
every external step, returning the structured result, the event trace, and the
final state of the active-containers metrics map.  The bounded-concurrency
behaviour of the container semaphore is modelled as a small transition system.
-/

/-! ## File snapshots and the differ (`DockerExecutor._find_changed_files`) -/

/-- Embedding of the `FileState` dataclass.  `mtime` is a Python float used
only for equality comparison by the differ, so it is modelled by an arbitrary
type with decidable equality (`Int`); `md5_hash` is the hex digest string
computed by the snapshotter and is an opaque input here. -/
structure FileState where
  size : Nat
  mtime : Int
  md5_hash : String
deriving DecidableEq, Repr

/-- A directory snapshot: the Python dict mapping relative paths to states,
as an association list (dict keys are unique, stated as a `Nodup` hypothesis
where needed). -/
abbrev Snapshot := List (String × FileState)

/-- Association-list lookup used to embed Python dict access. -/
def lookupState : Snapshot → String → Option FileState
  | [], _ => none
  | (k, v) :: rest, key => if k = key then some v else lookupState rest key

/-- The per-entry test of `_find_changed_files`: an `after` entry is changed
if its path is absent from `before` or any of size, hash, mtime differs. -/
def entryChanged (before : Snapshot) (rel : String) (a : FileState) : Bool :=
  match lookupState before rel with
  | none => true
  | some b => b.size != a.size || b.md5_hash != a.md5_hash || b.mtime != a.mtime

/-- Embedding of `DockerExecutor._find_changed_files`: iterate over the
`after` snapshot and collect the new or modified paths.  Entries of `before`
absent from `after` are only logged by the source and never collected. -/
def find_changed_files (before after : Snapshot) : List String :=
  (after.filter fun p => entryChanged before p.1 p.2).map Prod.fst

/-! ## The stream demultiplexer (`DockerExecutor._clean_output`) -/

/-- `int.from_bytes(b, byteorder="big")` on a byte slice. -/
def beUInt32 (b : List Nat) : Nat :=
  b.foldl (fun acc x => acc * 256 + x) 0

/-- One iteration of the `_clean_output` while-loop, with fuel.  Each
iteration consumes at least 8 bytes, so fuel equal to the buffer length is
always sufficient.  If fewer than 8 header bytes remain, or fewer than the
announced payload bytes remain after a header, the loop breaks and the
trailing bytes are dropped. -/
def demuxLoop : Nat → List Nat → List (List Nat)
  | 0, _ => []
  | fuel + 1, raw =>
    if raw.length < 8 then []
    else
      let frameSize := beUInt32 ((raw.drop 4).take 4)
      let rest := raw.drop 8
      if rest.length < frameSize then []
      else rest.take frameSize :: demuxLoop fuel (rest.drop frameSize)

/-- The frame payloads extracted by `_clean_output` from a raw buffer. -/
def demuxFrames (raw : List Nat) : List (List Nat) :=
  demuxLoop raw.length raw

/-- Continuation byte test for UTF-8 decoding. -/
def utf8Cont (c : Nat) : Bool := 0x80 ≤ c && c < 0xC0

/-- Strict UTF-8 decoder with fuel (Python `bytes.decode("utf-8")`); returns
the sequence of code points or `none` where Python raises
`UnicodeDecodeError`.  Rejects overlong forms, surrogates and values beyond
U+10FFFF exactly as Python's strict codec does. -/
def utf8DecodeLoop : Nat → List Nat → Option (List Nat)
  | 0, [] => some []
  | 0, _ :: _ => none
  | _ + 1, [] => some []
  | fuel + 1, b :: rest =>
    if b < 0x80 then (utf8DecodeLoop fuel rest).map (b :: ·)
    else if b < 0xC2 then none
    else if b < 0xE0 then
      match rest with
      | c1 :: rest2 =>
        if utf8Cont c1 then
          (utf8DecodeLoop fuel rest2).map (((b - 0xC0) * 64 + (c1 - 0x80)) :: ·)
        else none
      | [] => none
    else if b < 0xF0 then
      match rest with
      | c1 :: c2 :: rest2 =>
        if (if b = 0xE0 then 0xA0 ≤ c1 && c1 < 0xC0
            else if b = 0xED then 0x80 ≤ c1 && c1 < 0xA0
            else utf8Cont c1) && utf8Cont c2 then
          (utf8DecodeLoop fuel rest2).map
            (((b - 0xE0) * 4096 + (c1 - 0x80) * 64 + (c2 - 0x80)) :: ·)
        else none
      | _ => none
    else if b < 0xF5 then
      match rest with
      | c1 :: c2 :: c3 :: rest2 =>
        if (if b = 0xF0 then 0x90 ≤ c1 && c1 < 0xC0
            else if b = 0xF4 then 0x80 ≤ c1 && c1 < 0x90
            else utf8Cont c1) && utf8Cont c2 && utf8Cont c3 then
          (utf8DecodeLoop fuel rest2).map
            (((b - 0xF0) * 262144 + (c1 - 0x80) * 4096 + (c2 - 0x80) * 64 + (c3 - 0x80)) :: ·)
        else none
      | _ => none
    else none

/-- UTF-8 decode of a byte list into code points. -/
def utf8Decode (bs : List Nat) : Option (List Nat) :=
  utf8DecodeLoop bs.length bs

/-- The code points stripped by Python's `str.strip()` (the characters for
which `str.isspace()` holds). -/
def isPySpaceCode (c : Nat) : Bool :=
  c ∈ [0x09, 0x0A, 0x0B, 0x0C, 0x0D, 0x1C, 0x1D, 0x1E, 0x1F, 0x20, 0x85,
       0xA0, 0x1680, 0x2000, 0x2001, 0x2002, 0x2003, 0x2004, 0x2005, 0x2006,
       0x2007, 0x2008, 0x2009, 0x200A, 0x2028, 0x2029, 0x202F, 0x205F, 0x3000]

/-- Python `str.rstrip()`: remove trailing whitespace only. -/
def pyRStrip (s : List Nat) : List Nat :=
  (s.reverse.dropWhile isPySpaceCode).reverse

/-- Python `str.strip()`: remove leading and trailing whitespace. -/
def pyStrip (s : List Nat) : List Nat :=
  pyRStrip (s.dropWhile isPySpaceCode)

/-- Embedding of `DockerExecutor._clean_output`: demultiplex the raw buffer,
join the payloads, decode as UTF-8 and apply `str.strip()`.  `none` models a
`UnicodeDecodeError` raised by the decode. -/
def cleanOutput (raw : List Nat) : Option (List Nat) :=
  (utf8Decode (demuxFrames raw).flatten).map pyStrip

/-- Big-endian encoding of a frame header for a payload of length `n` on
stream `sb` (specification-side constructor, used to state what a
well-formed multiplexed stream is). -/
def frameHeader (sb n : Nat) : List Nat :=
  [sb, 0, 0, 0, n / 16777216 % 256, n / 65536 % 256, n / 256 % 256, n % 256]

/-- A complete frame: 8-byte header followed by the payload. -/
def encodeFrame (sb : Nat) (payload : List Nat) : List Nat :=
  frameHeader sb payload.length ++ payload

/-- A well-formed multiplexed stream: the concatenation of complete frames. -/
def encodeStream (frames : List (Nat × List Nat)) : List Nat :=
  (frames.map fun p => encodeFrame p.1 p.2).flatten

/-- Trailing bytes that `_clean_output` drops: fewer than 8 header bytes, or
a header announcing more payload bytes than remain. -/
def Truncated (junk : List Nat) : Prop :=
  junk.length < 8 ∨ junk.length < 8 + beUInt32 ((junk.drop 4).take 4)

/-! ## MIME guessing for changed files (`DockerExecutor.execute`, line 472) -/

/-- The pair returned by Python's `mimetypes.guess_type`: `(type, encoding)`. -/
structure PyGuess where
  type : Option String
  encoding : Option String
deriving DecidableEq, Repr

/-- Extension table modelling the relevant part of Python's `mimetypes`
extension map (keyed by the lower-cased extension after the last dot). -/
def typesMap : List (List Char × String) :=
  [(['t', 'x', 't'], "text/plain"),
   (['c', 's', 'v'], "text/csv"),
   (['j', 's', 'o', 'n'], "application/json"),
   (['p', 'n', 'g'], "image/png"),
   (['p', 'd', 'f'], "application/pdf"),
   (['h', 't', 'm', 'l'], "text/html")]

/-- The characters of `s` after the last occurrence of `sep` (the whole list
when `sep` does not occur). -/
def afterLast (sep : Char) (s : List Char) : List Char :=
  (s.reverse.takeWhile fun c => c != sep).reverse

/-- Modelled from Python's standard library: `mimetypes.guess_type` on a bare
file name — look the extension after the last dot up in the extension table;
it always returns a 2-tuple, with `type = None` when nothing is known. -/
def guess_type (name : String) : PyGuess :=
  if name.data.contains '.' then
    match typesMap.lookup ((afterLast '.' name.data).map Char.toLower) with
    | some t => ⟨some t, none⟩
    | none => ⟨none, none⟩
  else ⟨none, none⟩

/-- Python truthiness of a 2-tuple value: a non-empty tuple is always truthy,
whatever its components. -/
def pyTupleTruthy (_ : PyGuess) : Bool := true

/-- Python `a or b` evaluated on the tuple `a`: `a` if truthy, else `b`. -/
def pyOrGuess (a b : PyGuess) : PyGuess :=
  if pyTupleTruthy a then a else b

/-- Embedding of line 472 of `docker_executor.py`:
`content_type, _ = mimetypes.guess_type(file_path.name) or
("application/octet-stream", None)`. -/
def contentTypeOf (name : String) : Option String :=
  (pyOrGuess (guess_type name) ⟨some "application/octet-stream", none⟩).type

/-! ## The empty-output hint of the request layer (`app/api/base.py`) -/

/-- Execution status of an engine result. -/
inductive Status
  | ok
  | error
deriving DecidableEq, Repr

/-- The slice of the engine result dict the request layer's hint logic reads
and writes. -/
structure ApiRun where
  stdout : String
  stderr : String
  status : Status
deriving DecidableEq, Repr

def pyEmptyHint : String := "Empty. Make sure to explicitly print the results in Python"

def rEmptyHint : String := "Empty. Make sure to use print() or cat() to display results in R"

def genericEmptyHint : String := "Empty. Make sure to explicitly output the results"

/-- Embedding of lines 108–115 of `app/api/base.py`: the hint is substituted
whenever `result.get("stdout")` is falsy, with no check of `status`. -/
def applyEmptyOutputHint (lang : String) (run : ApiRun) : ApiRun :=
  if run.stdout = "" then
    if lang = "py" then { run with stdout := pyEmptyHint }
    else if lang = "r" then { run with stdout := rEmptyHint }
    else { run with stdout := genericEmptyHint }
  else run

/-! ## The metadata store (`DatabaseManager.add_file`) -/

/-- A row of the `files` table. -/
structure FileRow where
  id : String
  session_id : String
  filename : String
  filepath : String
  size : Nat
  content_type : Option String
  original_filename : String
  etag : String
  created_at : String
  last_modified : String
deriving DecidableEq, Repr

/-- The `file_data` dict handed to `add_file` by the engine.  `content_type`
is an `Option` because the MIME guess can produce `None` (see `contentTypeOf`).
`name` is the storage reference key of the dict, unused by `add_file`. -/
structure FileData where
  id : String
  session_id : String
  filename : String
  filepath : String
  size : Nat
  content_type : Option String
  original_filename : String
  etag : String
  name : String
deriving DecidableEq, Repr

/-- The `WHERE session_id = ? AND filename = ?` predicate. -/
def keyMatch (sid fn : String) (r : FileRow) : Bool :=
  r.session_id == sid && r.filename == fn

/-- `SELECT ... WHERE session_id = ? AND filename = ?` (first matching row). -/
def findRow (db : List FileRow) (sid fn : String) : Option FileRow :=
  db.find? (keyMatch sid fn)

/-- The `UPDATE files SET id=?, filepath=?, size=?, content_type=?,
original_filename=?, etag=?, last_modified=? WHERE ...` row transformer:
`session_id`, `filename` and `created_at` are untouched. -/
def updateRow (now : String) (d : FileData) (r : FileRow) : FileRow :=
  { r with id := d.id, filepath := d.filepath, size := d.size,
           content_type := d.content_type,
           original_filename := d.original_filename,
           etag := d.etag, last_modified := now }

/-- The `INSERT` row: both timestamps set to now(UTC). -/
def newRow (now : String) (d : FileData) : FileRow :=
  ⟨d.id, d.session_id, d.filename, d.filepath, d.size, d.content_type,
   d.original_filename, d.etag, now, now⟩

/-- The effect of the `UPDATE` statement on one row: rewrite it when it
matches the key, leave it unchanged otherwise. -/
def upsertRow (now : String) (d : FileData) (r : FileRow) : FileRow :=
  if keyMatch d.session_id d.filename r then updateRow now d r else r

/-- Embedding of `DatabaseManager.add_file`: check for an existing row with
the same `(session_id, filename)`, update it if present, insert otherwise. -/
def add_file (now : String) (d : FileData) (db : List FileRow) : List FileRow :=
  if db.any (keyMatch d.session_id d.filename) then db.map (upsertRow now d)
  else db ++ [newRow now d]

/-- The `UNIQUE(session_id, filename)` constraint of the schema. -/
def UniqueKey (db : List FileRow) : Prop :=
  db.Pairwise fun a b => ¬(a.session_id = b.session_id ∧ a.filename = b.filename)

/-! ## The execution engine (`DockerExecutor.execute`)

`execute` is embedded as a pure function over an environment describing the
outcome of every effectful step (Docker API calls, directory scans, database
writes).  Exceptions raised by a step are modelled by the corresponding flag
being `false` (or an `Option` being `none`); the embedding mirrors the
source's `try`/`except`/`finally` nesting: the inner `except Exception`
converts any raise of the inner body into the generic error dict, the
`finally` block attempts teardown, and the outer `except Exception` catches
raises occurring before the semaphore block. -/

/-- Outcome of one `images.inspect` call: image present, a 404
`DockerError` (image not found), or any other exception. -/
inductive InspectOutcome
  | found
  | notFound
  | otherError
deriving DecidableEq, Repr

/-- Container metrics as returned in the success dict. -/
structure Metrics where
  memory_usage : Nat
  cpu_usage : Nat
  execution_time : Nat
deriving DecidableEq, Repr

/-- The structured result dict of `execute`.  `stdout`/`stderr` are decoded
text (code points); `metrics` is present only in the success dict. -/
structure ExecResult where
  stdout : List Nat
  stderr : List Nat
  status : Status
  files : List FileData
  metrics : Option Metrics
deriving DecidableEq, Repr

/-- Environment of one `execute` call: the outcome of every external step,
in program order.  Fields that are functions provide per-path data for the
registration loop (fresh ids, stat results, md5-of-mtime etags). -/
structure EngineEnv where
  initOk : Bool
  mkdirOk : Bool
  firstInspect : InspectOutcome
  secondInspect : InspectOutcome
  pullOk : Bool
  pullErrMsg : String
  createOk : Bool
  containerId : String
  startOk : Bool
  runningOk : Bool
  chownOk : Bool
  execOk : Bool
  exitCode : Int
  rawOutput : List Nat
  beforeScan : Snapshot
  afterScan : Snapshot
  fileIsFile : String → Bool
  genId : String → String
  regSize : String → Nat
  etagOf : String → String
  dbAddOk : Bool
  metricsOf : Metrics

/-- Events recorded along an execution, used to state ordering and
occurrence properties of one `execute` call. -/
inductive Ev
  | scanBefore
  | semAcquire
  | imageCheck
  | imagePull
  | create (cid : String)
  | metricsAdd (cid : String)
  | interpExec (cmd : List String)
  | scanAfter
  | dbAdd (filename : String)
  | caughtInner
  | caughtOuter
  | deleteAttempt (cid : String) (forced ok : Bool)
  | metricsRemove (cid : String)
  | semRelease
deriving DecidableEq, Repr

/-- What `execute` leaves behind: the returned dict, the event trace, and
the key set of the `_active_containers` metrics map after the call. -/
structure ExecOutcome where
  result : ExecResult
  trace : List Ev
  finalActive : List String
deriving Repr

/-- `DockerExecutor.LANGUAGE_EXECUTORS`. -/
def LANGUAGE_EXECUTORS : List (String × List String) :=
  [("py", ["python", "-c"]), ("r", ["Rscript", "-e"])]

/-- `settings.LANGUAGE_CONTAINERS` (default image configuration). -/
def LANGUAGE_CONTAINERS : List (String × String) :=
  [("py", "jupyter/scipy-notebook:latest"), ("r", "jupyter/r-notebook:latest")]

/-- `settings.LANGUAGE_CONTAINERS.get(lang)`: `None` for unknown languages. -/
def imageNameOf (lang : String) : Option String :=
  LANGUAGE_CONTAINERS.lookup lang

/-- Line 429: `LANGUAGE_EXECUTORS.get(lang, LANGUAGE_EXECUTORS["py"])`. -/
def execCmdFor (lang : String) : List String :=
  match LANGUAGE_EXECUTORS.lookup lang with
  | some cmd => cmd
  | none => (LANGUAGE_EXECUTORS.lookup "py").getD []

/-- Code points of a string literal (for the fixed error messages). -/
def strCodes (s : String) : List Nat :=
  s.data.map Char.toNat

/-- The dict returned by both `except Exception` handlers. -/
def genericErrorResult : ExecResult :=
  ⟨[], strCodes "Failed to execute code. Please try again.", .error, [], none⟩

/-- Python string interpolation of an optional image name (`None` renders as
the string `None`). -/
def showImage : Option String → String
  | some s => s
  | none => "None"

/-- The dict returned when the image pull fails (lines 343–348). -/
def pullErrorResult (image : Option String) (msg : String) : ExecResult :=
  ⟨[], strCodes ("Failed to pull required Docker image: " ++ showImage image ++
      ". Error: " ++ msg), .error, [], none⟩

/-- `Path(rel_path).name`: the basename after the last slash. -/
def basenameStr (s : String) : String :=
  String.mk (afterLast '/' s.data)

/-- The `file_data` dict built for one changed path (lines 467–490). -/
def mkFileData (env : EngineEnv) (session_id rel : String) : FileData :=
  { id := env.genId rel
    session_id := session_id
    filename := basenameStr rel
    filepath := session_id ++ "/" ++ rel
    size := env.regSize rel
    content_type := contentTypeOf (basenameStr rel)
    original_filename := basenameStr rel
    etag := env.etagOf rel
    name := session_id ++ "/" ++ env.genId rel ++ "/" ++ basenameStr rel }

/-- The registration loop over changed paths (lines 464–495): skip non-files,
build the metadata dict, store it.  Returns `none` paired with the events so
far when an `add_file` call raises (modelled by `dbAddOk = false`: the first
attempted write fails). -/
def registerLoop (env : EngineEnv) (session_id : String) :
    List String → Option (List FileData) × List Ev
  | [] => (some [], [])
  | rel :: rest =>
    if env.fileIsFile rel then
      let fd := mkFileData env session_id rel
      if env.dbAddOk then
        match registerLoop env session_id rest with
        | (some fds, evs) => (some (fd :: fds), Ev.dbAdd fd.filename :: evs)
        | (none, evs) => (none, Ev.dbAdd fd.filename :: evs)
      else (none, [Ev.dbAdd fd.filename])
    else registerLoop env session_id rest

/-- Result of the inner `try` body: `out = some r` models `return r`,
`out = none` models an exception reaching the inner `except`;
`created`/`metricsAdded` record whether the container resp. its metrics
entry exist when the `finally` block runs. -/
structure InnerRes where
  out : Option ExecResult
  evs : List Ev
  created : Option String
  metricsAdded : Bool

/-- The inner body from container creation onwards (lines 358–509):
create, start, register metrics, wait for running, chown, interpreter exec,
exit-code check, post-snapshot, diff, registration, success dict. -/
def afterImage (env : EngineEnv) (code session_id lang : String)
    (evs0 : List Ev) : InnerRes :=
  if env.createOk then
    let cid := env.containerId
    let evs1 := evs0 ++ [Ev.create cid]
    if env.startOk then
      let evs2 := evs1 ++ [Ev.metricsAdd cid]
      if env.runningOk then
        if env.chownOk then
          let cmd := execCmdFor lang ++ [code]
          let evs3 := evs2 ++ [Ev.interpExec cmd]
          if env.execOk then
            match cleanOutput env.rawOutput with
            | some outText =>
              if env.exitCode ≠ 0 then
                ⟨some ⟨[], outText, .error, [], none⟩, evs3, some cid, true⟩
              else
                let evs4 := evs3 ++ [Ev.scanAfter]
                let changed := find_changed_files env.beforeScan env.afterScan
                match registerLoop env session_id changed with
                | (some fds, devs) =>
                  ⟨some ⟨outText, [], .ok, fds, some env.metricsOf⟩,
                    evs4 ++ devs, some cid, true⟩
                | (none, devs) => ⟨none, evs4 ++ devs, some cid, true⟩
            | none => ⟨none, evs3, some cid, true⟩
          else ⟨none, evs3, some cid, true⟩
        else ⟨none, evs2, some cid, true⟩
      else ⟨none, evs2, some cid, true⟩
    else ⟨none, evs1, some cid, false⟩
  else ⟨none, evs0, none, false⟩

/-- The inner `try` body (lines 308–509), starting with image readiness:
inspect, on 404 re-inspect under the per-image lock, pull on a second 404
(returning the pull-error dict when the pull raises), re-raise any
non-404 inspect error. -/
def innerBody (env : EngineEnv) (code session_id lang : String) : InnerRes :=
  match env.firstInspect with
  | .found => afterImage env code session_id lang [Ev.imageCheck]
  | .otherError => ⟨none, [Ev.imageCheck], none, false⟩
  | .notFound =>
    match env.secondInspect with
    | .found => afterImage env code session_id lang [Ev.imageCheck, Ev.imageCheck]
    | .otherError => ⟨none, [Ev.imageCheck, Ev.imageCheck], none, false⟩
    | .notFound =>
      if env.pullOk then
        afterImage env code session_id lang
          [Ev.imageCheck, Ev.imageCheck, Ev.imagePull]
      else
        ⟨some (pullErrorResult (imageNameOf lang) env.pullErrMsg),
          [Ev.imageCheck, Ev.imageCheck, Ev.imagePull], none, false⟩

/-- The `finally` block (lines 520–528): if a container exists, force-delete
it and, only when the delete succeeded, pop its metrics entry; a failing
delete is caught and logged, skipping the pop. -/
def teardownEvs (deleteOk : Bool) : Option String → List Ev
  | none => []
  | some cid =>
    if deleteOk then [Ev.deleteAttempt cid true true, Ev.metricsRemove cid]
    else [Ev.deleteAttempt cid true false]

/-- Embedding of `DockerExecutor.execute`: client handshake and session
directory setup (whose raises reach the outer `except`), pre-snapshot,
semaphore block containing the inner `try`/`except`/`finally`.
`deleteOk` is whether the forced container delete of the `finally` block
succeeds (the body never reads it); `active0` is the metrics-map key set
when the call starts. -/
def executeModel (env : EngineEnv) (deleteOk : Bool)
    (code session_id lang : String) (active0 : List String) : ExecOutcome :=
  if env.initOk then
    if env.mkdirOk then
      let ib := innerBody env code session_id lang
      let caught : List Ev := match ib.out with
        | some _ => []
        | none => [Ev.caughtInner]
      let activeMid := active0 ++ (if ib.metricsAdded then [env.containerId] else [])
      ⟨(match ib.out with
        | some r => r
        | none => genericErrorResult),
        Ev.scanBefore :: Ev.semAcquire ::
          (ib.evs ++ caught ++ teardownEvs deleteOk ib.created ++ [Ev.semRelease]),
        (match ib.created with
         | none => activeMid
         | some cid => if deleteOk then activeMid.erase cid else activeMid)⟩
    else ⟨genericErrorResult, [Ev.caughtOuter], active0⟩
  else ⟨genericErrorResult, [Ev.caughtOuter], active0⟩

/-- All steps up to and including the interpreter exec succeed (the
execution reaches the exit-code check). -/
def GoodThroughExec (env : EngineEnv) : Prop :=
  env.initOk = true ∧ env.mkdirOk = true ∧
  (env.firstInspect = .found ∨
    (env.firstInspect = .notFound ∧
      (env.secondInspect = .found ∨
        (env.secondInspect = .notFound ∧ env.pullOk = true)))) ∧
  env.createOk = true ∧ env.startOk = true ∧ env.runningOk = true ∧
  env.chownOk = true ∧ env.execOk = true

/-! ## The container semaphore (bounded concurrency)

The claim about `MAX_CONCURRENT_CONTAINERS` quantifies over interleavings of
many concurrent `execute` calls, so it is stated over a transition system:
each task goes through pre-snapshot, semaphore acquisition, container
creation (which inserts into the metrics map), teardown (which removes the
entry only when the forced delete succeeds, mirroring the `finally` block)
and permit release.  `active` is the size of the metrics map. -/

/-- Phase of one execution task. -/
inductive TaskPhase
  | tStart
  | tScanned
  | tHolding
  | tRunning
  | tTorn
  | tDone
deriving DecidableEq, Repr

/-- Global scheduler state: free semaphore permits, the phase of each task,
and the number of entries in the metrics map. -/
structure Sched where
  available : Nat
  tasks : List TaskPhase
  active : Nat
deriving DecidableEq, Repr

/-- Interleaving steps of the engine under the container semaphore.  The
boolean index `true` additionally permits the teardown-failure step in which
the forced delete raises and the metrics entry is not removed. -/
inductive SchedStep : Bool → Sched → Sched → Prop
  | scan (af : Bool) (l r : List TaskPhase) (avail a : Nat) :
      SchedStep af ⟨avail, l ++ .tStart :: r, a⟩ ⟨avail, l ++ .tScanned :: r, a⟩
  | acquirePermit (af : Bool) (l r : List TaskPhase) (avail a : Nat) :
      SchedStep af ⟨avail + 1, l ++ .tScanned :: r, a⟩ ⟨avail, l ++ .tHolding :: r, a⟩
  | createC (af : Bool) (l r : List TaskPhase) (avail a : Nat) :
      SchedStep af ⟨avail, l ++ .tHolding :: r, a⟩ ⟨avail, l ++ .tRunning :: r, a + 1⟩
  | abortBeforeCreate (af : Bool) (l r : List TaskPhase) (avail a : Nat) :
      SchedStep af ⟨avail, l ++ .tHolding :: r, a⟩ ⟨avail, l ++ .tTorn :: r, a⟩
  | teardownOk (af : Bool) (l r : List TaskPhase) (avail a : Nat) :
      SchedStep af ⟨avail, l ++ .tRunning :: r, a + 1⟩ ⟨avail, l ++ .tTorn :: r, a⟩
  | teardownFail (l r : List TaskPhase) (avail a : Nat) :
      SchedStep true ⟨avail, l ++ .tRunning :: r, a⟩ ⟨avail, l ++ .tTorn :: r, a⟩
  | release (af : Bool) (l r : List TaskPhase) (avail a : Nat) :
      SchedStep af ⟨avail, l ++ .tTorn :: r, a⟩ ⟨avail + 1, l ++ .tDone :: r, a⟩

/-- Reachability under the scheduler steps. -/
def SchedReach (af : Bool) (s t : Sched) : Prop :=
  Relation.ReflTransGen (SchedStep af) s t

/-- Initial state: `cap` free permits, `n` idle tasks, empty metrics map. -/
def initSched (n cap : Nat) : Sched :=
  ⟨cap, List.replicate n .tStart, 0⟩

/-- A task in these phases holds a semaphore permit. -/
def holdsPermit : TaskPhase → Bool
  | .tHolding | .tRunning | .tTorn => true
  | .tStart | .tScanned | .tDone => false

/-- A task in this phase has created its container and not yet run its
teardown. -/
def isRunning : TaskPhase → Bool
  | .tRunning => true
  | _ => false

/-- Strengthened invariant of the semaphore model: permits are conserved,
and the metrics map holds at most one entry per running task. -/
def SchedInv (cap : Nat) (s : Sched) : Prop :=
  s.available + s.tasks.countP holdsPermit = cap ∧
  s.active ≤ s.tasks.countP isRunning

/-- A concrete all-steps-succeed environment used by witnesses. -/
def envHappy : EngineEnv :=
  { initOk := true, mkdirOk := true, firstInspect := .found,
    secondInspect := .found, pullOk := true, pullErrMsg := "",
    createOk := true, containerId := "c1", startOk := true, runningOk := true,
    chownOk := true, execOk := true, exitCode := 0, rawOutput := [],
    beforeScan := [], afterScan := [], fileIsFile := fun _ => true,
    genId := fun _ => "id0", regSize := fun _ => 0, etagOf := fun _ => "e0",
    dbAddOk := true, metricsOf := ⟨0, 0, 0⟩ }

/-- A concrete environment whose image pull fails, used by witnesses. -/
def envPullFail : EngineEnv :=
  { envHappy with firstInspect := .notFound, secondInspect := .notFound, pullOk := false, pullErrMsg := "no network" }

/-! ## Theorems -/

theorem mem_find_changed_iff (before after : Snapshot) (rel : String) :
    rel ∈ find_changed_files before after ↔
      ∃ a, (rel, a) ∈ after ∧ entryChanged before rel a = true := by
  simp only [find_changed_files, List.mem_map, List.mem_filter]
  constructor
  · rintro ⟨⟨r, a⟩, ⟨hm, hc⟩, rfl⟩
    exact ⟨a, hm, hc⟩
  · rintro ⟨a, hm, hc⟩
    exact ⟨(rel, a), ⟨hm, hc⟩, rfl⟩

theorem lookupState_eq_some (l : Snapshot) (hnd : (l.map Prod.fst).Nodup)
    (rel : String) (a : FileState) :
    lookupState l rel = some a ↔ (rel, a) ∈ l := by
  induction l with
  | nil => simp [lookupState]
  | cons p rest ih =>
    obtain ⟨k, v⟩ := p
    rw [List.map_cons, List.nodup_cons] at hnd
    obtain ⟨hk, hrest⟩ := hnd
    rw [lookupState]
    by_cases h : k = rel
    · subst h
      rw [if_pos rfl]
      constructor
      · intro h'
        injection h' with h''
        subst h''
        exact List.mem_cons_self _ _
      · intro hmem
        rcases List.mem_cons.mp hmem with heq | hmem'
        · cases heq; rfl
        · exact absurd (List.mem_map.mpr ⟨(k, a), hmem', rfl⟩) hk
    · rw [if_neg h, ih hrest]
      constructor
      · exact fun h' => List.mem_cons_of_mem _ h'
      · intro hmem
        rcases List.mem_cons.mp hmem with heq | hmem'
        · cases heq; exact absurd rfl h
        · exact hmem'

theorem entryChanged_iff (before : Snapshot) (rel : String) (a : FileState) :
    entryChanged before rel a = true ↔
      (lookupState before rel = none ∨
        ∃ b, lookupState before rel = some b ∧
          (b.size ≠ a.size ∨ b.md5_hash ≠ a.md5_hash ∨ b.mtime ≠ a.mtime)) := by
  unfold entryChanged
  cases h : lookupState before rel with
  | none => simp [h]
  | some b => simp [h, bne_iff_ne, or_assoc]

/-- Claim C1: a relative path is returned by the differ iff it is present in
the `after` snapshot and either absent from `before` or differing in size,
content hash or mtime; in particular paths absent from `after` (deletions)
never appear in the result. -/
theorem find_changed_files_correct (before after : Snapshot)
    (hnd : (after.map Prod.fst).Nodup) (rel : String) :
    rel ∈ find_changed_files before after ↔
      ∃ a, lookupState after rel = some a ∧
        (lookupState before rel = none ∨
          ∃ b, lookupState before rel = some b ∧
            (b.size ≠ a.size ∨ b.md5_hash ≠ a.md5_hash ∨ b.mtime ≠ a.mtime)) := by
  rw [mem_find_changed_iff]
  constructor
  · rintro ⟨a, hm, hc⟩
    exact ⟨a, (lookupState_eq_some after hnd rel a).mpr hm,
      (entryChanged_iff before rel a).mp hc⟩
  · rintro ⟨a, hl, hd⟩
    exact ⟨a, (lookupState_eq_some after hnd rel a).mp hl,
      (entryChanged_iff before rel a).mpr hd⟩

/-- Witness for C1 at a concrete pair of snapshots: `a.txt` has a changed
hash with identical size and mtime, and is reported. -/
theorem find_changed_files_correct_witness :
    (([("a.txt", FileState.mk 1 0 "h1"), ("b.txt", FileState.mk 2 0 "h2")].map
        Prod.fst).Nodup) ∧
    ("a.txt" ∈ find_changed_files [("a.txt", FileState.mk 1 0 "h0")]
        [("a.txt", FileState.mk 1 0 "h1"), ("b.txt", FileState.mk 2 0 "h2")] ↔
      ∃ a, lookupState [("a.txt", FileState.mk 1 0 "h1"),
            ("b.txt", FileState.mk 2 0 "h2")] "a.txt" = some a ∧
        (lookupState [("a.txt", FileState.mk 1 0 "h0")] "a.txt" = none ∨
          ∃ b, lookupState [("a.txt", FileState.mk 1 0 "h0")] "a.txt" = some b ∧
            (b.size ≠ a.size ∨ b.md5_hash ≠ a.md5_hash ∨ b.mtime ≠ a.mtime))) :=
  ⟨by decide, find_changed_files_correct _ _ (by decide) _⟩

theorem take_len_append {α : Type} (l t : List α) : (l ++ t).take l.length = l := by
  induction l with
  | nil => rfl
  | cons x xs ih => simp [ih]

theorem drop_len_append {α : Type} (l t : List α) : (l ++ t).drop l.length = t := by
  induction l with
  | nil => rfl
  | cons x xs ih => simp [ih]

theorem demuxLoop_truncated (junk : List Nat) (h : Truncated junk) :
    ∀ fuel, demuxLoop fuel junk = [] := by
  intro fuel
  cases fuel with
  | zero => rfl
  | succ n =>
    rw [demuxLoop]
    rcases h with h | h
    · simp [h]
    · by_cases h8 : junk.length < 8
      · simp [h8]
      · have hlt : junk.length - 8 < beUInt32 ((junk.drop 4).take 4) := by omega
        simp [h8, List.length_drop, hlt]

theorem beUInt32_decode (n : Nat) (h : n < 4294967296) :
    beUInt32 [n / 16777216 % 256, n / 65536 % 256, n / 256 % 256, n % 256] = n := by
  simp only [beUInt32, List.foldl]
  omega

theorem demuxLoop_encode (frames : List (Nat × List Nat)) (junk : List Nat)
    (hsz : ∀ p ∈ frames, (Prod.snd p).length < 4294967296)
    (htr : Truncated junk) :
    ∀ fuel, (encodeStream frames ++ junk).length ≤ fuel →
      demuxLoop fuel (encodeStream frames ++ junk) = frames.map Prod.snd := by
  induction frames with
  | nil =>
    intro fuel _
    simpa [encodeStream] using demuxLoop_truncated junk htr fuel
  | cons f fr ih =>
    obtain ⟨sb, p⟩ := f
    intro fuel hfuel
    have hp : p.length < 4294967296 := hsz (sb, p) (List.mem_cons_self _ _)
    have hraw : encodeStream ((sb, p) :: fr) ++ junk
        = frameHeader sb p.length ++ (p ++ (encodeStream fr ++ junk)) := by
      simp [encodeStream, encodeFrame, List.append_assoc]
    rw [hraw] at hfuel ⊢
    have hlen8 : (frameHeader sb p.length ++ (p ++ (encodeStream fr ++ junk))).length
        = 8 + (p.length + (encodeStream fr ++ junk).length) := by
      simp [frameHeader]
      omega
    cases fuel with
    | zero => omega
    | succ n =>
      rw [demuxLoop]
      rw [if_neg (by omega)]
      have hdrop : ((frameHeader sb p.length ++ (p ++ (encodeStream fr ++ junk))).drop 4).take 4
          = [p.length / 16777216 % 256, p.length / 65536 % 256,
             p.length / 256 % 256, p.length % 256] := rfl
      have hdrop8 : (frameHeader sb p.length ++ (p ++ (encodeStream fr ++ junk))).drop 8
          = p ++ (encodeStream fr ++ junk) := rfl
      rw [hdrop, hdrop8, beUInt32_decode p.length hp]
      rw [if_neg (by simp)]
      rw [take_len_append, drop_len_append]
      have : (encodeStream fr ++ junk).length ≤ n := by omega
      rw [ih (fun q hq => hsz q (List.mem_cons_of_mem _ hq)) n this]
      simp

/-- Claim C2 (amended): on any buffer consisting of complete frames followed
by truncated trailing bytes, `_clean_output` recovers exactly the payloads,
concatenates them, decodes UTF-8 and trims whitespace from **both** ends
(Python `str.strip()`), not only the trailing end. -/
theorem clean_output_frames_spec (frames : List (Nat × List Nat)) (junk : List Nat)
    (hsz : ∀ p ∈ frames, (Prod.snd p).length < 4294967296)
    (htr : Truncated junk) :
    demuxFrames (encodeStream frames ++ junk) = frames.map Prod.snd ∧
    cleanOutput (encodeStream frames ++ junk) =
      (utf8Decode (frames.map Prod.snd).flatten).map pyStrip := by
  have h1 := demuxLoop_encode frames junk hsz htr
    (encodeStream frames ++ junk).length le_rfl
  exact ⟨h1, by rw [cleanOutput, demuxFrames, h1]⟩

/-- Witness for C2 (amended) on a concrete single-frame stream with one
truncated trailing byte. -/
theorem clean_output_frames_spec_witness :
    (∀ p ∈ [((1 : Nat), [104, 105])], (Prod.snd p).length < 4294967296) ∧
    Truncated [0] ∧
    demuxFrames (encodeStream [(1, [104, 105])] ++ [0]) =
      [((1 : Nat), [104, 105])].map Prod.snd ∧
    cleanOutput (encodeStream [(1, [104, 105])] ++ [0]) =
      (utf8Decode ([((1 : Nat), [104, 105])].map Prod.snd).flatten).map pyStrip := by
  refine ⟨by decide, by simp [Truncated], ?_, ?_⟩
  · exact (clean_output_frames_spec _ _ (by decide) (by simp [Truncated])).1
  · exact (clean_output_frames_spec _ _ (by decide) (by simp [Truncated])).2

/-- Counterexample to claim C2 as stated: on a frame whose payload is
`" a"` (leading space), `_clean_output` returns `"a"` — the leading
whitespace is **not** preserved, because the source applies `str.strip()`,
while the claim (payloads decoded with only trailing whitespace trimmed,
`pyRStrip`) would give `" a"`. -/
theorem clean_output_strips_leading_whitespace :
    cleanOutput [1, 0, 0, 0, 0, 0, 0, 2, 32, 97] = some [97] ∧
    (utf8Decode (demuxFrames [1, 0, 0, 0, 0, 0, 0, 2, 32, 97]).flatten).map pyRStrip =
      some [32, 97] := by decide

/-- Claim C3 (code bug): the `or`-fallback on line 472 is dead code because
`mimetypes.guess_type` always returns a (truthy) 2-tuple, so the stored
`content_type` is always the guessed type — `None`, not
`"application/octet-stream"`, whenever nothing can be guessed from the
extension (e.g. `output.xyz`), contradicting the `NOT NULL` schema column. -/
theorem content_type_fallback_dead :
    (∀ name, contentTypeOf name = (guess_type name).type) ∧
    guess_type "output.xyz" = ⟨none, none⟩ ∧
    contentTypeOf "output.xyz" = none ∧
    contentTypeOf "report.txt" = some "text/plain" := by
  refine ⟨fun name => rfl, ?_, ?_, ?_⟩ <;> decide

/-- Claim C4 (code bug): the request layer substitutes the language hint
whenever `stdout` is empty, with no check of `status` — so an engine error
result with empty stdout (e.g. a `ZeroDivisionError`) comes back with the
Python hint in `stdout` instead of the unmodified empty string that the
claim (and the repository's own `test_code_execution_error`) requires. -/
theorem empty_hint_substituted_on_error :
    applyEmptyOutputHint "py"
        ⟨"", "ZeroDivisionError: division by zero", .error⟩ =
      ⟨pyEmptyHint, "ZeroDivisionError: division by zero", .error⟩ ∧
    pyEmptyHint ≠ "" := by
  refine ⟨?_, ?_⟩ <;> decide

theorem keyMatch_upsertRow (now : String) (d : FileData) (s f : String) (r : FileRow) :
    keyMatch s f (upsertRow now d r) = keyMatch s f r := by
  unfold upsertRow
  by_cases hr : keyMatch d.session_id d.filename r = true
  · rw [if_pos hr]; rfl
  · rw [if_neg hr]

theorem keys_upsertRow (now : String) (d : FileData) (r : FileRow) :
    (upsertRow now d r).session_id = r.session_id ∧
    (upsertRow now d r).filename = r.filename := by
  unfold upsertRow
  by_cases hr : keyMatch d.session_id d.filename r = true
  · rw [if_pos hr]; exact ⟨rfl, rfl⟩
  · rw [if_neg hr]; exact ⟨rfl, rfl⟩

theorem keyMatch_iff (s f : String) (r : FileRow) :
    keyMatch s f r = true ↔ r.session_id = s ∧ r.filename = f := by
  simp [keyMatch]

theorem find?_map_keyMatch (s f : String) (g : FileRow → FileRow)
    (hk : ∀ r, keyMatch s f (g r) = keyMatch s f r) (db : List FileRow) :
    (db.map g).find? (keyMatch s f) = (db.find? (keyMatch s f)).map g := by
  induction db with
  | nil => rfl
  | cons r rest ih =>
    rw [List.map_cons]
    cases h : keyMatch s f r with
    | true =>
      rw [List.find?_cons_of_pos _ (by simp [hk, h]),
        List.find?_cons_of_pos _ h]
      rfl
    | false =>
      rw [List.find?_cons_of_neg _ (by simp [hk, h]),
        List.find?_cons_of_neg _ (by simp [h]), ih]

theorem find?_append_none {p : FileRow → Bool} (db l2 : List FileRow)
    (h : db.find? p = none) : (db ++ l2).find? p = l2.find? p := by
  induction db with
  | nil => rfl
  | cons r rest ih =>
    cases hr : p r with
    | true => rw [List.find?_cons_of_pos _ hr] at h; cases h
    | false =>
      rw [List.find?_cons_of_neg _ (by simp [hr])] at h
      rw [List.cons_append, List.find?_cons_of_neg _ (by simp [hr]), ih h]

theorem find?_append_some {p : FileRow → Bool} (db l2 : List FileRow) (a : FileRow)
    (h : db.find? p = some a) : (db ++ l2).find? p = some a := by
  induction db with
  | nil => cases h
  | cons r rest ih =>
    cases hr : p r with
    | true =>
      rw [List.find?_cons_of_pos _ hr] at h
      rw [List.cons_append, List.find?_cons_of_pos _ hr]
      exact h
    | false =>
      rw [List.find?_cons_of_neg _ (by simp [hr])] at h
      rw [List.cons_append, List.find?_cons_of_neg _ (by simp [hr]), ih h]

theorem filter_map_keyMatch (s f : String) (g : FileRow → FileRow)
    (hk : ∀ r, keyMatch s f (g r) = keyMatch s f r) (db : List FileRow) :
    ((db.map g).filter (keyMatch s f)).length = (db.filter (keyMatch s f)).length := by
  induction db with
  | nil => rfl
  | cons r rest ih =>
    cases h : keyMatch s f r with
    | true => simp [List.filter_cons, hk r, h, ih]
    | false => simp [List.filter_cons, hk r, h, ih]

theorem filter_key_len_one (s f : String) (db : List FileRow)
    (h : UniqueKey db) (hex : db.any (keyMatch s f) = true) :
    (db.filter (keyMatch s f)).length = 1 := by
  induction db with
  | nil => cases hex
  | cons r rest ih =>
    unfold UniqueKey at h
    rw [List.pairwise_cons] at h
    obtain ⟨hr, hrest⟩ := h
    cases hm : keyMatch s f r with
    | true =>
      have hnil : rest.filter (keyMatch s f) = [] := by
        rw [List.filter_eq_nil_iff]
        intro b hb hbm
        obtain ⟨hr1, hr2⟩ := (keyMatch_iff s f r).mp hm
        obtain ⟨hb1, hb2⟩ := (keyMatch_iff s f b).mp hbm
        exact hr b hb ⟨hr1.trans hb1.symm, hr2.trans hb2.symm⟩
      simp [List.filter_cons, hm, hnil]
    | false =>
      rw [List.any_cons, hm, Bool.false_or] at hex
      simpa [List.filter_cons, hm] using ih hrest hex

/-- Claim C7: `add_file` is an upsert keyed on `(session_id, filename)`.  It
preserves key uniqueness and leaves exactly one row for the added key; when a
row existed it is overwritten in `id, filepath, size, content_type,
original_filename, etag, last_modified` with `created_at` kept (see
`updateRow`); otherwise a new row is inserted with both timestamps equal to
now (see `newRow`); rows under other keys are untouched. -/
theorem add_file_upsert_spec (now : String) (d : FileData) (db : List FileRow)
    (h : UniqueKey db) :
    UniqueKey (add_file now d db) ∧
    ((add_file now d db).filter (keyMatch d.session_id d.filename)).length = 1 ∧
    (∀ r0, findRow db d.session_id d.filename = some r0 →
      findRow (add_file now d db) d.session_id d.filename =
        some (updateRow now d r0)) ∧
    (findRow db d.session_id d.filename = none →
      findRow (add_file now d db) d.session_id d.filename =
        some (newRow now d)) ∧
    (∀ sid fn, ¬(sid = d.session_id ∧ fn = d.filename) →
      findRow (add_file now d db) sid fn = findRow db sid fn) := by
  by_cases hex : db.any (keyMatch d.session_id d.filename) = true
  · have hadd : add_file now d db = db.map (upsertRow now d) := by
      unfold add_file
      rw [if_pos hex]
    refine ⟨?_, ?_, ?_, ?_, ?_⟩
    · rw [hadd]
      unfold UniqueKey at h ⊢
      rw [List.pairwise_map]
      refine h.imp ?_
      intro a b hab hcon
      exact hab ⟨((keys_upsertRow now d a).1.symm.trans hcon.1).trans
          (keys_upsertRow now d b).1,
        ((keys_upsertRow now d a).2.symm.trans hcon.2).trans
          (keys_upsertRow now d b).2⟩
    · rw [hadd, filter_map_keyMatch _ _ _ (keyMatch_upsertRow now d _ _)]
      exact filter_key_len_one _ _ db h hex
    · intro r0 hr0
      rw [hadd]
      unfold findRow at hr0 ⊢
      rw [find?_map_keyMatch _ _ _ (keyMatch_upsertRow now d _ _), hr0]
      have hm : keyMatch d.session_id d.filename r0 = true := List.find?_some hr0
      simp [upsertRow, hm]
    · intro hnone
      exfalso
      unfold findRow at hnone
      rcases List.any_eq_true.mp hex with ⟨a, ha, hma⟩
      exact (List.find?_eq_none.mp hnone a ha) hma
    · intro sid fn hne
      rw [hadd]
      unfold findRow
      rw [find?_map_keyMatch _ _ _ (keyMatch_upsertRow now d _ _)]
      cases hf : db.find? (keyMatch sid fn) with
      | none => rfl
      | some r1 =>
        have hm : keyMatch sid fn r1 = true := List.find?_some hf
        obtain ⟨h1, h2⟩ := (keyMatch_iff sid fn r1).mp hm
        have hnm : keyMatch d.session_id d.filename r1 = false := by
          cases hc : keyMatch d.session_id d.filename r1 with
          | false => rfl
          | true =>
            obtain ⟨hc1, hc2⟩ := (keyMatch_iff _ _ _).mp hc
            exact absurd ⟨h1.symm.trans hc1, h2.symm.trans hc2⟩ hne
        simp [upsertRow, hnm]
  · have hadd : add_file now d db = db ++ [newRow now d] := by
      unfold add_file
      rw [if_neg hex]
    have hall : ∀ a ∈ db, ¬keyMatch d.session_id d.filename a = true := by
      intro a ha hma
      exact hex (List.any_eq_true.mpr ⟨a, ha, hma⟩)
    have hfn : db.find? (keyMatch d.session_id d.filename) = none :=
      List.find?_eq_none.mpr hall
    have hkmnew : keyMatch d.session_id d.filename (newRow now d) = true := by
      simp [keyMatch, newRow]
    refine ⟨?_, ?_, ?_, ?_, ?_⟩
    · rw [hadd]
      unfold UniqueKey at h ⊢
      rw [List.pairwise_append]
      refine ⟨h, List.pairwise_singleton _ _, ?_⟩
      intro a ha b hb
      rw [List.mem_singleton] at hb
      subst hb
      intro hcon
      exact hall a ha ((keyMatch_iff _ _ _).mpr ⟨hcon.1, hcon.2⟩)
    · rw [hadd, List.filter_append]
      have h1 : db.filter (keyMatch d.session_id d.filename) = [] :=
        List.filter_eq_nil_iff.mpr hall
      simp [h1, hkmnew]
    · intro r0 hr0
      unfold findRow at hr0
      rw [hfn] at hr0
      cases hr0
    · intro _
      rw [hadd]
      unfold findRow
      rw [find?_append_none db _ hfn]
      simp [List.find?, hkmnew]
    · intro sid fn hne
      rw [hadd]
      unfold findRow
      cases hf : db.find? (keyMatch sid fn) with
      | some r1 => exact find?_append_some db _ r1 hf
      | none =>
        rw [find?_append_none db _ hf]
        have hz : keyMatch sid fn (newRow now d) = false := by
          cases hc : keyMatch sid fn (newRow now d) with
          | false => rfl
          | true =>
            obtain ⟨h1, h2⟩ := (keyMatch_iff _ _ _).mp hc
            exact absurd ⟨h1.symm, h2.symm⟩ hne
        simp [List.find?, hz]

/-- Witness for C7: inserting into an empty table yields one row for the
key, and the invariant holds. -/
theorem add_file_upsert_spec_witness :
    UniqueKey (add_file "t1"
      ⟨"f1", "s1", "a.txt", "s1/a.txt", 2, some "text/plain", "a.txt", "e1",
        "s1/f1/a.txt"⟩ []) ∧
    ((add_file "t1"
      ⟨"f1", "s1", "a.txt", "s1/a.txt", 2, some "text/plain", "a.txt", "e1",
        "s1/f1/a.txt"⟩ []).filter (keyMatch "s1" "a.txt")).length = 1 :=
  ⟨(add_file_upsert_spec "t1"
      ⟨"f1", "s1", "a.txt", "s1/a.txt", 2, some "text/plain", "a.txt", "e1",
        "s1/f1/a.txt"⟩ [] List.Pairwise.nil).1,
    (add_file_upsert_spec "t1"
      ⟨"f1", "s1", "a.txt", "s1/a.txt", 2, some "text/plain", "a.txt", "e1",
        "s1/f1/a.txt"⟩ [] List.Pairwise.nil).2.1⟩

theorem registerLoop_evs (env : EngineEnv) (sid : String) (l : List String) :
    ∀ e ∈ (registerLoop env sid l).2, ∃ f, e = Ev.dbAdd f := by
  induction l with
  | nil => intro e he; cases he
  | cons rel rest ih =>
    intro e he
    unfold registerLoop at he
    by_cases hf : env.fileIsFile rel = true
    · rw [if_pos hf] at he
      by_cases hd : env.dbAddOk = true
      · rw [if_pos hd] at he
        rcases hr : registerLoop env sid rest with ⟨o, devs⟩
        rw [hr] at he
        cases o with
        | some fds =>
          rcases List.mem_cons.mp he with h | h
          · exact ⟨_, h⟩
          · exact ih e (by rw [hr]; exact h)
        | none =>
          rcases List.mem_cons.mp he with h | h
          · exact ⟨_, h⟩
          · exact ih e (by rw [hr]; exact h)
      · rw [if_neg hd] at he
        rcases List.mem_singleton.mp he with h
        exact ⟨_, h⟩
    · rw [if_neg hf] at he
      exact ih e he

theorem registerLoop_total (env : EngineEnv) (sid : String) (l : List String)
    (h : env.dbAddOk = true) :
    ∃ fds, (registerLoop env sid l).1 = some fds := by
  induction l with
  | nil => exact ⟨[], rfl⟩
  | cons rel rest ih =>
    unfold registerLoop
    by_cases hf : env.fileIsFile rel = true
    · rw [if_pos hf, if_pos h]
      obtain ⟨fds, hfds⟩ := ih
      rcases hr : registerLoop env sid rest with ⟨o, devs⟩
      rw [hr] at hfds
      simp only at hfds
      subst hfds
      exact ⟨_, rfl⟩
    · rw [if_neg hf]
      exact ih

theorem afterImage_master (env : EngineEnv) (code sid lang : String)
    (evs0 : List Ev)
    (h0a : Ev.caughtInner ∉ evs0) (h0b : Ev.caughtOuter ∉ evs0)
    (h0c : ∀ c, Ev.create c ∉ evs0) :
    ((afterImage env code sid lang evs0).out = none ∨
      ∃ r, (afterImage env code sid lang evs0).out = some r ∧
        (r.status = .ok ∨ (r.status = .error ∧ r.stdout = [] ∧ r.files = []))) ∧
    Ev.caughtInner ∉ (afterImage env code sid lang evs0).evs ∧
    Ev.caughtOuter ∉ (afterImage env code sid lang evs0).evs ∧
    ((afterImage env code sid lang evs0).created =
      if env.createOk = true then some env.containerId else none) ∧
    (∀ cid, Ev.create cid ∈ (afterImage env code sid lang evs0).evs →
      env.createOk = true ∧ cid = env.containerId) := by
  unfold afterImage
  cases h1 : env.createOk with
  | false => simp_all
  | true =>
    cases h2 : env.startOk with
    | false => simp_all
    | true =>
      cases h3 : env.runningOk with
      | false => simp_all
      | true =>
        cases h4 : env.chownOk with
        | false => simp_all
        | true =>
          cases h5 : env.execOk with
          | false => simp_all
          | true =>
            simp only [if_true]
            cases hco : cleanOutput env.rawOutput with
            | none => simp_all
            | some outText =>
              by_cases h6 : env.exitCode = 0
              · rcases hr : registerLoop env sid
                    (find_changed_files env.beforeScan env.afterScan) with ⟨o, devs⟩
                have hdev : ∀ e ∈ devs, ∃ f, e = Ev.dbAdd f := by
                  intro e he
                  exact registerLoop_evs env sid _ e (by rw [hr]; exact he)
                have hdev1 : Ev.caughtInner ∉ devs := by
                  intro hin
                  rcases hdev _ hin with ⟨f, hf⟩
                  cases hf
                have hdev2 : Ev.caughtOuter ∉ devs := by
                  intro hin
                  rcases hdev _ hin with ⟨f, hf⟩
                  cases hf
                have hdev3 : ∀ c, Ev.create c ∉ devs := by
                  intro c hin
                  rcases hdev _ hin with ⟨f, hf⟩
                  cases hf
                cases o with
                | some fds => simp_all
                | none => simp_all
              · simp_all

theorem innerBody_master (env : EngineEnv) (code sid lang : String) :
    ((innerBody env code sid lang).out = none ∨
      ∃ r, (innerBody env code sid lang).out = some r ∧
        (r.status = .ok ∨ (r.status = .error ∧ r.stdout = [] ∧ r.files = []))) ∧
    Ev.caughtInner ∉ (innerBody env code sid lang).evs ∧
    Ev.caughtOuter ∉ (innerBody env code sid lang).evs ∧
    ((innerBody env code sid lang).created = none ∨
      (innerBody env code sid lang).created = some env.containerId) ∧
    (∀ cid, Ev.create cid ∈ (innerBody env code sid lang).evs →
      cid = env.containerId ∧
        (innerBody env code sid lang).created = some cid) := by
  have key : ∀ evs0, Ev.caughtInner ∉ evs0 → Ev.caughtOuter ∉ evs0 →
      (∀ c, Ev.create c ∉ evs0) →
      ((afterImage env code sid lang evs0).out = none ∨
        ∃ r, (afterImage env code sid lang evs0).out = some r ∧
          (r.status = .ok ∨ (r.status = .error ∧ r.stdout = [] ∧ r.files = []))) ∧
      Ev.caughtInner ∉ (afterImage env code sid lang evs0).evs ∧
      Ev.caughtOuter ∉ (afterImage env code sid lang evs0).evs ∧
      ((afterImage env code sid lang evs0).created = none ∨
        (afterImage env code sid lang evs0).created = some env.containerId) ∧
      (∀ cid, Ev.create cid ∈ (afterImage env code sid lang evs0).evs →
        cid = env.containerId ∧
          (afterImage env code sid lang evs0).created = some cid) := by
    intro evs0 ha hb hc
    obtain ⟨o1, o2, o3, o4, o5⟩ := afterImage_master env code sid lang evs0 ha hb hc
    refine ⟨o1, o2, o3, ?_, ?_⟩
    · rw [o4]
      cases env.createOk with
      | false => exact Or.inl rfl
      | true => exact Or.inr rfl
    · intro cid hm
      obtain ⟨hok, hcid⟩ := o5 cid hm
      rw [o4, hok]
      exact ⟨hcid, by simp [hcid]⟩
  unfold innerBody
  cases env.firstInspect with
  | found => exact key _ (by simp) (by simp) (by simp)
  | otherError => simp
  | notFound =>
    cases env.secondInspect with
    | found => exact key _ (by simp) (by simp) (by simp)
    | otherError => simp
    | notFound =>
      cases hp : env.pullOk with
      | true =>
        simp only [if_true]
        exact key _ (by simp) (by simp) (by simp)
      | false =>
        simp [pullErrorResult]

theorem teardownEvs_facts (b : Bool) (c : Option String) :
    Ev.caughtInner ∉ teardownEvs b c ∧ Ev.caughtOuter ∉ teardownEvs b c ∧
    Ev.scanAfter ∉ teardownEvs b c ∧ (∀ f, Ev.dbAdd f ∉ teardownEvs b c) ∧
    (∀ cid, Ev.create cid ∉ teardownEvs b c) := by
  cases c <;> cases b <;> simp [teardownEvs]

theorem afterImage_nonzero (env : EngineEnv) (code sid lang : String)
    (evs0 : List Ev) (out : List Nat)
    (h4 : env.createOk = true) (h5 : env.startOk = true)
    (h6 : env.runningOk = true) (h7 : env.chownOk = true)
    (h8 : env.execOk = true) (hdec : cleanOutput env.rawOutput = some out)
    (hexit : env.exitCode ≠ 0) :
    afterImage env code sid lang evs0 =
      ⟨some ⟨[], out, .error, [], none⟩,
        evs0 ++ [Ev.create env.containerId] ++ [Ev.metricsAdd env.containerId] ++
          [Ev.interpExec (execCmdFor lang ++ [code])],
        some env.containerId, true⟩ := by
  unfold afterImage
  rw [h4, h5, h6, h7, h8, hdec]
  simp [hexit]

theorem innerBody_nonzero (env : EngineEnv) (code sid lang : String)
    (out : List Nat)
    (himg : env.firstInspect = .found ∨
      (env.firstInspect = .notFound ∧
        (env.secondInspect = .found ∨
          (env.secondInspect = .notFound ∧ env.pullOk = true))))
    (h4 : env.createOk = true) (h5 : env.startOk = true)
    (h6 : env.runningOk = true) (h7 : env.chownOk = true)
    (h8 : env.execOk = true) (hdec : cleanOutput env.rawOutput = some out)
    (hexit : env.exitCode ≠ 0) :
    (innerBody env code sid lang).out = some ⟨[], out, .error, [], none⟩ ∧
    (innerBody env code sid lang).created = some env.containerId ∧
    Ev.scanAfter ∉ (innerBody env code sid lang).evs ∧
    (∀ f, Ev.dbAdd f ∉ (innerBody env code sid lang).evs) := by
  unfold innerBody
  rcases himg with hf | ⟨hf, hs | ⟨hs, hpull⟩⟩
  · simp only [hf]
    rw [afterImage_nonzero env code sid lang [Ev.imageCheck] out
      h4 h5 h6 h7 h8 hdec hexit]
    simp
  · simp only [hf, hs]
    rw [afterImage_nonzero env code sid lang [Ev.imageCheck, Ev.imageCheck] out
      h4 h5 h6 h7 h8 hdec hexit]
    simp
  · simp only [hf, hs, hpull, if_true]
    rw [afterImage_nonzero env code sid lang
      [Ev.imageCheck, Ev.imageCheck, Ev.imagePull] out h4 h5 h6 h7 h8 hdec hexit]
    simp

/-- Claim C5: when the interpreter exec finishes with a non-zero exit code,
`execute` returns exactly `{stdout: "", stderr: decoded output, status:
error, files: []}` (no metrics key), takes no post-snapshot and registers no
file records — whatever the post-execution directory contents
(`env.afterScan`) are. -/
theorem nonzero_exit_returns_error_without_registration
    (env : EngineEnv) (deleteOk : Bool) (code sid lang : String)
    (active0 : List String) (out : List Nat)
    (hg : GoodThroughExec env)
    (hdec : cleanOutput env.rawOutput = some out)
    (hexit : env.exitCode ≠ 0) :
    (executeModel env deleteOk code sid lang active0).result =
      ⟨[], out, .error, [], none⟩ ∧
    Ev.scanAfter ∉ (executeModel env deleteOk code sid lang active0).trace ∧
    (∀ f, Ev.dbAdd f ∉ (executeModel env deleteOk code sid lang active0).trace) := by
  unfold GoodThroughExec at hg
  obtain ⟨h1, h2, himg, h4, h5, h6, h7, h8⟩ := hg
  obtain ⟨ho, hcr, hsa, hdb⟩ :=
    innerBody_nonzero env code sid lang out himg h4 h5 h6 h7 h8 hdec hexit
  obtain ⟨t1, t2, t3, t4, t5⟩ :=
    teardownEvs_facts deleteOk (innerBody env code sid lang).created
  unfold executeModel
  simp only [h1, h2, if_true, ho]
  refine ⟨by trivial, ?_, ?_⟩
  · simp [hsa, t3]
  · intro f
    simp [hdb f, t4 f]

/-- Witness for C5 at a concrete environment whose interpreter exits 1. -/
theorem nonzero_exit_witness :
    GoodThroughExec { envHappy with exitCode := 1 } ∧
    cleanOutput { envHappy with exitCode := 1 }.rawOutput = some [] ∧
    ({ envHappy with exitCode := 1 } : EngineEnv).exitCode ≠ 0 ∧
    (executeModel { envHappy with exitCode := 1 } true "x" "s" "py" []).result =
      ⟨[], [], .error, [], none⟩ :=
  ⟨by constructor <;> decide, by decide, by decide,
    (nonzero_exit_returns_error_without_registration
      { envHappy with exitCode := 1 } true "x" "s" "py" [] []
      (by constructor <;> decide) (by decide) (by decide)).1⟩

theorem executeModel_result_shape (env : EngineEnv) (deleteOk : Bool)
    (code sid lang : String) (active0 : List String) :
    ((executeModel env deleteOk code sid lang active0).result.status = .ok ∨
      ((executeModel env deleteOk code sid lang active0).result.status = .error ∧
        (executeModel env deleteOk code sid lang active0).result.stdout = [] ∧
        (executeModel env deleteOk code sid lang active0).result.files = [])) ∧
    ((Ev.caughtInner ∉ (executeModel env deleteOk code sid lang active0).trace ∧
        Ev.caughtOuter ∉ (executeModel env deleteOk code sid lang active0).trace) ∨
      (executeModel env deleteOk code sid lang active0).result =
        genericErrorResult) := by
  obtain ⟨o1, o2, o3, o4, o5⟩ := innerBody_master env code sid lang
  obtain ⟨t1, t2, t3, t4, t5⟩ :=
    teardownEvs_facts deleteOk (innerBody env code sid lang).created
  unfold executeModel
  cases h1 : env.initOk with
  | false => exact ⟨Or.inr ⟨rfl, rfl, rfl⟩, Or.inr rfl⟩
  | true =>
    cases h2 : env.mkdirOk with
    | false => exact ⟨Or.inr ⟨rfl, rfl, rfl⟩, Or.inr rfl⟩
    | true =>
      simp only [if_true]
      cases ho : (innerBody env code sid lang).out with
      | none =>
        refine ⟨Or.inr ⟨rfl, rfl, rfl⟩, Or.inr rfl⟩
      | some r =>
        rcases o1 with hno | ⟨r', hr', hsh⟩
        · rw [ho] at hno
          cases hno
        · rw [ho] at hr'
          injection hr' with he
          subst he
          constructor
          · rcases hsh with hok | ⟨he1, he2, he3⟩
            · exact Or.inl hok
            · exact Or.inr ⟨he1, he2, he3⟩
          · left
            constructor
            · simp [o2, t1]
            · simp [o3, t2]

/-- Claim C8 (amended): on every exit path on which a container was created,
a forced delete is attempted before `execute` returns; when the delete
succeeds, the metrics-map entry is removed; and the outcome of teardown never
changes the returned result.  (When the delete raises, the entry is *not*
removed — see the counterexample.) -/
theorem container_teardown_attempted (env : EngineEnv) (deleteOk : Bool)
    (code sid lang : String) (active0 : List String)
    (hfresh : env.containerId ∉ active0) :
    (∀ cid, Ev.create cid ∈ (executeModel env deleteOk code sid lang active0).trace →
      Ev.deleteAttempt cid true deleteOk ∈
        (executeModel env deleteOk code sid lang active0).trace ∧
      (deleteOk = true →
        cid ∉ (executeModel env deleteOk code sid lang active0).finalActive)) ∧
    (∀ b1 b2, (executeModel env b1 code sid lang active0).result =
      (executeModel env b2 code sid lang active0).result) := by
  obtain ⟨o1, o2, o3, o4, o5⟩ := innerBody_master env code sid lang
  constructor
  · intro cid hmem
    unfold executeModel at hmem ⊢
    cases h1 : env.initOk with
    | false =>
      rw [h1] at hmem
      simp at hmem
    | true =>
      cases h2 : env.mkdirOk with
      | false =>
        rw [h1, h2] at hmem
        simp at hmem
      | true =>
        rw [h1, h2] at hmem
        have t5a : ∀ c, Ev.create c ∉
            teardownEvs deleteOk (innerBody env code sid lang).created :=
          (teardownEvs_facts deleteOk (innerBody env code sid lang).created).2.2.2.2
        have hcaught : ∀ c, Ev.create c ∉
            (match (innerBody env code sid lang).out with
              | some _ => ([] : List Ev)
              | none => [Ev.caughtInner]) := by
          intro c
          cases (innerBody env code sid lang).out <;> simp
        simp only [if_true] at hmem
        simp only [List.mem_cons, List.mem_append] at hmem
        have hin : Ev.create cid ∈ (innerBody env code sid lang).evs := by
          rcases hmem with h | h | h
          · cases h
          · cases h
          · rcases h with ⟨⟨h | h⟩ | h⟩ | h
            · exact h
            · exact absurd h (hcaught cid)
            · exact absurd h (t5a cid)
            · rcases h with h | h
              · cases h
              · cases h
        obtain ⟨hcid, hcr⟩ := o5 cid hin
        subst hcid
        simp only [h1, h2, if_true]
        rw [hcr]
        constructor
        · cases hd : deleteOk <;> simp [teardownEvs]
        · intro hdel
          subst hdel
          cases hma : (innerBody env code sid lang).metricsAdded with
          | false => simp [List.erase_of_not_mem hfresh, hfresh]
          | true =>
            simp [List.erase_append_right _ hfresh, List.erase_cons_head, hfresh]
  · intro b1 b2
    unfold executeModel
    cases env.initOk <;> cases env.mkdirOk <;> rfl

/-- Counterexample to claim C8 as stated: a run in which the container is
created and the forced delete raises leaves the container's entry in the
active-containers metrics map when `execute` returns — the entry is *not*
removed on that exit path. -/
theorem teardown_failure_leaves_metrics_entry :
    Ev.create "c1" ∈
      (executeModel { envHappy with exitCode := 1 } false "x" "s" "py" []).trace ∧
    (executeModel { envHappy with exitCode := 1 } false "x" "s" "py" []).finalActive =
      ["c1"] := by
  constructor <;> decide

/-- Witness for C8 (amended) at a concrete environment. -/
theorem container_teardown_attempted_witness :
    envHappy.containerId ∉ ([] : List String) ∧
    (∀ b1 b2, (executeModel envHappy b1 "x" "s" "py" []).result =
      (executeModel envHappy b2 "x" "s" "py" []).result) :=
  ⟨by decide,
    (container_teardown_attempted envHappy true "x" "s" "py" [] (by decide)).2⟩

theorem execCmdFor_unknown (lang : String) (h1 : lang ≠ "py") (h2 : lang ≠ "r") :
    execCmdFor lang = ["python", "-c"] := by
  have e1 : (lang == "py") = false := by simp [h1]
  have e2 : (lang == "r") = false := by simp [h2]
  simp [execCmdFor, LANGUAGE_EXECUTORS, List.lookup, e1, e2]

theorem afterImage_zero (env : EngineEnv) (code sid lang : String)
    (evs0 : List Ev) (out : List Nat)
    (h4 : env.createOk = true) (h5 : env.startOk = true)
    (h6 : env.runningOk = true) (h7 : env.chownOk = true)
    (h8 : env.execOk = true) (hdec : cleanOutput env.rawOutput = some out)
    (hz : env.exitCode = 0) (hdb : env.dbAddOk = true) :
    ∃ fds, afterImage env code sid lang evs0 =
      ⟨some ⟨out, [], .ok, fds, some env.metricsOf⟩,
        evs0 ++ [Ev.create env.containerId] ++ [Ev.metricsAdd env.containerId] ++
          [Ev.interpExec (execCmdFor lang ++ [code])] ++ [Ev.scanAfter] ++
          (registerLoop env sid (find_changed_files env.beforeScan env.afterScan)).2,
        some env.containerId, true⟩ := by
  obtain ⟨fds, hfds⟩ := registerLoop_total env sid
    (find_changed_files env.beforeScan env.afterScan) hdb
  refine ⟨fds, ?_⟩
  unfold afterImage
  rw [h4, h5, h6, h7, h8, hdec]
  rcases hr : registerLoop env sid
      (find_changed_files env.beforeScan env.afterScan) with ⟨o, devs⟩
  rw [hr] at hfds
  simp only at hfds
  subst hfds
  simp [hz, hr]

theorem innerBody_zero (env : EngineEnv) (code sid lang : String) (out : List Nat)
    (himg : env.firstInspect = .found ∨
      (env.firstInspect = .notFound ∧
        (env.secondInspect = .found ∨
          (env.secondInspect = .notFound ∧ env.pullOk = true))))
    (h4 : env.createOk = true) (h5 : env.startOk = true)
    (h6 : env.runningOk = true) (h7 : env.chownOk = true)
    (h8 : env.execOk = true) (hdec : cleanOutput env.rawOutput = some out)
    (hz : env.exitCode = 0) (hdb : env.dbAddOk = true) :
    (∃ fds, (innerBody env code sid lang).out =
      some ⟨out, [], .ok, fds, some env.metricsOf⟩) ∧
    Ev.interpExec (execCmdFor lang ++ [code]) ∈ (innerBody env code sid lang).evs := by
  unfold innerBody
  rcases himg with hf | ⟨hf, hs | ⟨hs, hpull⟩⟩
  · simp only [hf]
    obtain ⟨fds, he⟩ := afterImage_zero env code sid lang [Ev.imageCheck] out
      h4 h5 h6 h7 h8 hdec hz hdb
    rw [he]
    exact ⟨⟨fds, rfl⟩, by simp⟩
  · simp only [hf, hs]
    obtain ⟨fds, he⟩ := afterImage_zero env code sid lang
      [Ev.imageCheck, Ev.imageCheck] out h4 h5 h6 h7 h8 hdec hz hdb
    rw [he]
    exact ⟨⟨fds, rfl⟩, by simp⟩
  · simp only [hf, hs, hpull, if_true]
    obtain ⟨fds, he⟩ := afterImage_zero env code sid lang
      [Ev.imageCheck, Ev.imageCheck, Ev.imagePull] out h4 h5 h6 h7 h8 hdec hz hdb
    rw [he]
    exact ⟨⟨fds, rfl⟩, by simp⟩

theorem countP_replicate_false (p : TaskPhase → Bool) (a : TaskPhase)
    (hp : p a = false) (n : Nat) : (List.replicate n a).countP p = 0 := by
  induction n with
  | zero => rfl
  | succ k ih => simp [List.replicate_succ, List.countP_cons, hp, ih]

theorem countP_mono_hold (l : List TaskPhase) :
    l.countP isRunning ≤ l.countP holdsPermit := by
  induction l with
  | nil => exact Nat.le_refl 0
  | cons x xs ih =>
    simp only [List.countP_cons]
    cases x <;> simp [isRunning, holdsPermit] <;> omega

theorem schedStep_inv {cap : Nat} {s t : Sched} (h : SchedStep false s t)
    (hin : SchedInv cap s) : SchedInv cap t := by
  unfold SchedInv at hin ⊢
  obtain ⟨hi1, hi2⟩ := hin
  cases h <;>
    simp [List.countP_append, List.countP_cons, holdsPermit,
      isRunning] at hi1 hi2 ⊢ <;>
    constructor <;> omega

/-- Claim C9 (amended): provided every container teardown's forced delete
succeeds, the size of the active-containers metrics map never exceeds the
semaphore capacity `MAX_CONCURRENT_CONTAINERS` in any reachable state; and
within one execution the permit spans from just after the pre-snapshot to
the very end of the call (the trace is
`scanBefore, semAcquire, …, semRelease`).  With failing teardowns the bound
is violated — see the counterexample. -/
theorem semaphore_invariant :
    (∀ cap n s, SchedReach false (initSched n cap) s → s.active ≤ cap) ∧
    (∀ (env : EngineEnv) (deleteOk : Bool) (code sid lang : String)
        (active0 : List String), env.initOk = true → env.mkdirOk = true →
      ∃ mid, (executeModel env deleteOk code sid lang active0).trace =
        Ev.scanBefore :: Ev.semAcquire :: (mid ++ [Ev.semRelease])) := by
  constructor
  · intro cap n s hreach
    have hinv : SchedInv cap s := by
      unfold SchedReach at hreach
      induction hreach with
      | refl =>
        constructor
        · simp [initSched, countP_replicate_false holdsPermit .tStart rfl]
        · simp [initSched]
      | tail hsteps hstep ih => exact schedStep_inv hstep ih
    obtain ⟨h1, h2⟩ := hinv
    have := countP_mono_hold s.tasks
    omega
  · intro env deleteOk code sid lang active0 h1 h2
    unfold executeModel
    simp only [h1, h2, if_true]
    refine ⟨(innerBody env code sid lang).evs ++
      ((match (innerBody env code sid lang).out with
        | some _ => ([] : List Ev)
        | none => [Ev.caughtInner]) ++
        teardownEvs deleteOk (innerBody env code sid lang).created), ?_⟩
    simp

/-- Counterexample to claim C9 as stated: with capacity 1 and a failing
forced delete in the first task's teardown, the metrics map reaches size 2
(the first entry is never removed, yet the permit is released and a second
container is created). -/
theorem active_exceeds_cap_after_failed_teardown :
    SchedReach true (initSched 2 1) ⟨0, [.tDone, .tRunning], 2⟩ ∧
    ¬((⟨0, [.tDone, .tRunning], 2⟩ : Sched).active ≤ 1) := by
  constructor
  · unfold SchedReach
    refine Relation.ReflTransGen.tail ?_ (SchedStep.createC true [.tDone] [] 0 1)
    refine Relation.ReflTransGen.tail ?_
      (SchedStep.acquirePermit true [.tDone] [] 0 1)
    refine Relation.ReflTransGen.tail ?_ (SchedStep.scan true [.tDone] [] 1 1)
    refine Relation.ReflTransGen.tail ?_
      (SchedStep.release true [] [.tStart] 0 1)
    refine Relation.ReflTransGen.tail ?_
      (SchedStep.teardownFail [] [.tStart] 0 1)
    refine Relation.ReflTransGen.tail ?_ (SchedStep.createC true [] [.tStart] 0 0)
    refine Relation.ReflTransGen.tail ?_
      (SchedStep.acquirePermit true [] [.tStart] 0 0)
    refine Relation.ReflTransGen.tail ?_ (SchedStep.scan true [] [.tStart] 1 0)
    exact Relation.ReflTransGen.refl
  · decide

/-- Witness for C9 (amended): the invariant applied at the initial state,
and the trace shape of one concrete execution. -/
theorem semaphore_invariant_witness :
    (initSched 1 1).active ≤ 1 ∧
    (∃ mid, (executeModel envHappy true "x" "s" "py" []).trace =
      Ev.scanBefore :: Ev.semAcquire :: (mid ++ [Ev.semRelease])) :=
  ⟨semaphore_invariant.1 1 1 (initSched 1 1) Relation.ReflTransGen.refl,
    semaphore_invariant.2 envHappy true "x" "s" "py" [] rfl rfl⟩

/-- Claim C6: `execute` always returns a structured result: every error
result has empty stdout and an empty file list (the generic-error,
pull-error and non-zero-exit dicts all have this shape); whenever an
exception was caught (by the inner or outer handler), the returned dict is
exactly the generic `"Failed to execute code. Please try again."` error
result; and when the image pull fails, the returned dict is the pull-error
result whose stderr names the image and the underlying cause. -/
theorem execute_never_raises (env : EngineEnv) (deleteOk : Bool)
    (code sid lang : String) (active0 : List String) :
    ((executeModel env deleteOk code sid lang active0).result.status = .ok ∨
      ((executeModel env deleteOk code sid lang active0).result.status = .error ∧
        (executeModel env deleteOk code sid lang active0).result.stdout = [] ∧
        (executeModel env deleteOk code sid lang active0).result.files = [])) ∧
    ((Ev.caughtInner ∉ (executeModel env deleteOk code sid lang active0).trace ∧
        Ev.caughtOuter ∉ (executeModel env deleteOk code sid lang active0).trace) ∨
      (executeModel env deleteOk code sid lang active0).result =
        genericErrorResult) ∧
    (env.initOk = true → env.mkdirOk = true →
      env.firstInspect = .notFound → env.secondInspect = .notFound →
      env.pullOk = false →
      (executeModel env deleteOk code sid lang active0).result =
        pullErrorResult (imageNameOf lang) env.pullErrMsg) := by
  refine ⟨(executeModel_result_shape env deleteOk code sid lang active0).1,
    (executeModel_result_shape env deleteOk code sid lang active0).2, ?_⟩
  intro h1 h2 hf hs hp
  unfold executeModel innerBody
  simp only [h1, h2, hf, hs, hp, if_true]
  rfl

/-- Witness for C6: a concrete run whose image pull fails returns the
pull-error dict. -/
theorem execute_never_raises_witness :
    envPullFail.pullOk = false ∧
    (executeModel envPullFail true "x" "s" "py" []).result =
      pullErrorResult (imageNameOf "py") envPullFail.pullErrMsg :=
  ⟨rfl, (execute_never_raises envPullFail true "x" "s" "py" []).2.2
    rfl rfl rfl rfl rfl⟩

/-- Claim C10 (amended): the engine performs no language validation — the
interpreter-command lookup of line 429 falls back to the `"py"` entry
`["python", "-c"]` for any unrecognized `lang` — but line 310's
`settings.LANGUAGE_CONTAINERS.get(lang)` is `None` for such a `lang`, and no
image named `None` can ever be inspected as present or pulled successfully
(the hypotheses `hf`, `hs`, `hp` state exactly this about the environment),
so `execute` returns `status = error` without ever reaching the interpreter
exec step. -/
theorem unknown_lang_falls_back_but_errors (env : EngineEnv) (deleteOk : Bool)
    (code sid lang : String) (active0 : List String)
    (hpy : lang ≠ "py") (hlr : lang ≠ "r")
    (hf : env.firstInspect ≠ .found) (hs : env.secondInspect ≠ .found)
    (hp : env.pullOk = false) :
    imageNameOf lang = none ∧
    execCmdFor lang = ["python", "-c"] ∧
    (executeModel env deleteOk code sid lang active0).result.status = .error ∧
    (∀ cmd, Ev.interpExec cmd ∉
      (executeModel env deleteOk code sid lang active0).trace) := by
  have e1 : (lang == "py") = false := by simp [hpy]
  have e2 : (lang == "r") = false := by simp [hlr]
  refine ⟨by simp [imageNameOf, LANGUAGE_CONTAINERS, List.lookup, e1, e2],
    execCmdFor_unknown lang hpy hlr, ?_⟩
  unfold executeModel innerBody
  cases h1 : env.initOk with
  | false => exact ⟨rfl, fun cmd => by simp⟩
  | true =>
    cases h2 : env.mkdirOk with
    | false => exact ⟨rfl, fun cmd => by simp⟩
    | true =>
      simp only [if_true]
      cases hfi : env.firstInspect with
      | found => exact absurd hfi hf
      | otherError => exact ⟨rfl, fun cmd => by simp [teardownEvs]⟩
      | notFound =>
        cases hsi : env.secondInspect with
        | found => exact absurd hsi hs
        | otherError => exact ⟨rfl, fun cmd => by simp [teardownEvs]⟩
        | notFound =>
          rw [hp]
          exact ⟨rfl, fun cmd => by simp [teardownEvs]⟩

/-- Counterexample to claim C10 as stated: a concrete invocation with
`lang = "js"` on an environment of the only kind the program can produce for
an unknown language (image `None`: inspect never finds it, the pull fails)
returns `status = error` and never performs an interpreter exec — the engine
does fail for the unknown language rather than executing with the Python
fallback. -/
theorem unknown_lang_returns_error_counterexample :
    imageNameOf "js" = none ∧
    envPullFail.firstInspect ≠ InspectOutcome.found ∧
    envPullFail.secondInspect ≠ InspectOutcome.found ∧
    envPullFail.pullOk = false ∧
    (executeModel envPullFail true "x" "s" "js" []).result.status = .error ∧
    (∀ cmd, Ev.interpExec cmd ∉
      (executeModel envPullFail true "x" "s" "js" []).trace) := by
  refine ⟨by decide, by decide, by decide, by decide, by decide, ?_⟩
  intro cmd
  have htr : (executeModel envPullFail true "x" "s" "js" []).trace =
      [Ev.scanBefore, Ev.semAcquire, Ev.imageCheck, Ev.imageCheck,
        Ev.imagePull, Ev.semRelease] := by decide
  rw [htr]
  simp

/-- Witness for C10 (amended) at `lang = "js"` on a concrete environment. -/
theorem unknown_lang_falls_back_but_errors_witness :
    (("js" : String) ≠ "py") ∧ (("js" : String) ≠ "r") ∧
    envPullFail.firstInspect ≠ InspectOutcome.found ∧
    envPullFail.secondInspect ≠ InspectOutcome.found ∧
    envPullFail.pullOk = false ∧
    imageNameOf "js" = none ∧
    execCmdFor "js" = ["python", "-c"] ∧
    (executeModel envPullFail false "y" "s2" "js" []).result.status = .error :=
  ⟨by decide, by decide, by decide, by decide, rfl,
    (unknown_lang_falls_back_but_errors envPullFail false "y" "s2" "js" []
      (by decide) (by decide) (by decide) (by decide) rfl).1,
    (unknown_lang_falls_back_but_errors envPullFail false "y" "s2" "js" []
      (by decide) (by decide) (by decide) (by decide) rfl).2.1,
    (unknown_lang_falls_back_but_errors envPullFail false "y" "s2" "js" []
      (by decide) (by decide) (by decide) (by decide) rfl).2.2.1⟩
